import Mathlib

/-!
# Pulse-echo ranging firmware: measurement cycle and failure-streak monitor

A shallow embedding of `src/main/main.c`.

* The four `volatile` globals are the record `Globals`.
* The interrupt handlers `timer_failure_callback` and `echo_callback` are
  functions on `Globals`; the value of `time_us_64()` read inside the handler
  and the identifiers passed to `cancel_alarm` are made explicit.
* The platform alarm pool is the field `Sys.armed`; the busy wait of
  `measure_distance` consumes a list of interrupt events, one handler run
  at a time, and leaves the loop at the first state with `measuring = false`.
  The echo interrupt stays enabled after the loop, so `measure_distance`
  takes two more lists: the interrupts handled before the globals are read
  by the test of line 54, and those handled between line 54 and line 55.
  Lines 40-48 are the single step `arm`: no interrupt is handled while the
  trigger pulse is driven.
* `float` is binary32 with round-to-nearest-even, restricted to finite
  values `m * 2 ^ e` (no exponent bounds: every nonzero value the program
  computes has a magnitude between `2 ^ (-6)` and `2 ^ 60`).
* The `uint64_t` timestamps are natural numbers; the only arithmetic on
  them is `end_time - start_time`, which cannot wrap when it is computed on
  the window that passed `end_time > start_time` and wraps at 64 bits
  (`sub_u64`) when an interrupt changed the window in between. The `int`
  counter of `main` is incremented with 32-bit wrap.
* The body of the polling loop of `main` is `main_iter`; the code under
  `if (sensor_running)` after the call of `measure_distance` is
  `monitor_step`.
-/

namespace Ranging

/-! ## Single-precision values -/

/-- A finite single-precision value, standing for `m * 2 ^ e`. -/
structure F32 where
  m : Int
  e : Int
deriving DecidableEq

namespace F32

/-- The rational number a value stands for. -/
def toRat (x : F32) : ℚ := (x.m : ℚ) * (2 : ℚ) ^ x.e

/-- Floor of the base-two logarithm, by halving (`ilog2 n n` for `n ≥ 1`). -/
def ilog2 : Nat → Nat → Nat
  | 0, _ => 0
  | fuel + 1, n => if n < 2 then 0 else ilog2 fuel (n / 2) + 1

/-- Round the natural number `n` (with `sticky` telling that a nonzero
fraction below the unit was dropped) to 24 significant bits, nearest, ties
to even: the result `(q, sh)` stands for `q * 2 ^ sh`. -/
def round24 (n : Nat) (sticky : Bool) : Nat × Nat :=
  let L := ilog2 n n
  if L < 24 then (n, 0)
  else
    let sh := L - 23
    let q := n / 2 ^ sh
    let r := n % 2 ^ sh
    let half := 2 ^ (sh - 1)
    if half < r ∨ (r = half ∧ (sticky = true ∨ q % 2 = 1)) then (q + 1, sh) else (q, sh)

/-- Conversion of an unsigned integer to `float`. -/
def ofNat (n : Nat) : F32 :=
  let r := round24 n false
  ⟨r.1, r.2⟩

/-- Single-precision product. -/
def mul (a b : F32) : F32 :=
  let r := round24 (a.m.natAbs * b.m.natAbs) false
  ⟨a.m.sign * b.m.sign * r.1, a.e + b.e + r.2⟩

/-- Single-precision quotient. The dividend mantissa is scaled so that the
integer quotient has at least 27 bits; the remainder is the sticky bit.
A zero divisor has no finite quotient and is outside this model (the only
divisor in the program is `2.0f`). -/
def div (a b : F32) : F32 :=
  if b.m = 0 then ⟨0, 0⟩
  else
    let k := ilog2 b.m.natAbs b.m.natAbs + 27
    let n := a.m.natAbs * 2 ^ k
    let r := round24 (n / b.m.natAbs) (decide (n % b.m.natAbs ≠ 0))
    ⟨a.m.sign * b.m.sign * r.1, a.e - b.e - k + r.2⟩

/-- Comparison `a < b` of two values. -/
def lt (a b : F32) : Bool :=
  let E := min a.e b.e
  decide (a.m * 2 ^ (a.e - E).toNat < b.m * 2 ^ (b.e - E).toNat)

/-- The constant `0` of `distance > 0`. -/
def zero : F32 := ⟨0, 0⟩

/-- The literal `-1.0f`. -/
def minus_one : F32 := ⟨-1, 0⟩

/-- The literal `2.0f`. -/
def two : F32 := ⟨1, 1⟩

/-- The literal `0.0343f`: `9207336 * 2 ^ (-28)`, the binary32 value nearest
to `0.0343`. -/
def c_0_0343 : F32 := ⟨9207336, -28⟩

end F32

/-! ## Platform constants -/

/-- Constants of the pico-sdk headers used by `main.c`; the headers are not
part of the sources, so the definitions take them as a parameter. -/
structure Sdk where
  GPIO_IRQ_EDGE_RISE : Nat
  GPIO_IRQ_EDGE_FALL : Nat
  PICO_ERROR_TIMEOUT : Int

/-- The values of the pico-sdk (`0x8`, `0x4`, `-1`), for concrete scenarios. -/
def pico : Sdk := ⟨8, 4, -1⟩

/-! ## Measurement subsystem -/

/-- The globals `start_time`, `end_time`, `measuring`, `failure_alarm_id`. -/
structure Globals where
  start_time : Nat
  end_time : Nat
  measuring : Bool
  failure_alarm_id : Int
deriving DecidableEq

/-- The initial values of the globals. -/
def Globals.init : Globals := ⟨0, 0, false, -1⟩

/-- The alarm callback `timer_failure_callback`; the second component is
its return value (`0`: do not reschedule). -/
def timer_failure_callback (_id : Int) (g : Globals) : Globals × Int :=
  let g := if g.measuring then { g with measuring := false } else g
  let g := { g with failure_alarm_id := -1 }
  let g := { g with start_time := 0 }
  let g := { g with end_time := 0 }
  (g, 0)

/-- The GPIO handler `echo_callback`. `now` is what `time_us_64()` returns
inside the handler; the second component lists the identifiers passed to
`cancel_alarm`, in order. -/
def echo_callback (sdk : Sdk) (events : Nat) (now : Nat) (g : Globals) :
    Globals × List Int :=
  if events &&& sdk.GPIO_IRQ_EDGE_RISE ≠ 0 then
    ({ g with start_time := now }, [])
  else if events &&& sdk.GPIO_IRQ_EDGE_FALL ≠ 0 then
    let g := { g with end_time := now }
    let g := { g with measuring := false }
    if 0 ≤ g.failure_alarm_id then
      ({ g with failure_alarm_id := -1 }, [g.failure_alarm_id])
    else (g, [])
  else (g, [])

/-- What a handler did to the timeout guard. -/
inductive Effect where
  | reset_by_timeout
  | cancel_by_edge (id : Int)
deriving DecidableEq

/-- The globals together with the platform alarm (`armed`: the identifier of
the pending one-shot alarm, if any) and the history of guard effects. -/
structure Sys where
  g : Globals
  armed : Option Int
  log : List Effect
deriving DecidableEq

/-- Platform `cancel_alarm`: removes the pending alarm with that identifier. -/
def cancel_alarm (id : Int) (armed : Option Int) : Option Int :=
  if armed = some id then none else armed

/-- An interrupt: an edge on the echo pin (with the event mask and the time
read by the handler) or the expiry of the one-shot alarm. -/
inductive Event where
  | irq (events : Nat) (now : Nat)
  | expire
deriving DecidableEq

/-- Delivery of one interrupt. The platform runs the alarm callback only for
an alarm that is still pending, and the callback returning `0` retires it. -/
def deliver (sdk : Sdk) (s : Sys) : Event → Sys
  | Event.irq events now =>
    let r := echo_callback sdk events now s.g
    { g := r.1
      armed := r.2.foldl (fun a id => cancel_alarm id a) s.armed
      log := s.log ++ r.2.map Effect.cancel_by_edge }
  | Event.expire =>
    match s.armed with
    | none => s
    | some id =>
      { g := (timer_failure_callback id s.g).1
        armed := none
        log := s.log ++ [Effect.reset_by_timeout] }

/-- Delivery of a sequence of interrupts. -/
def deliver_all (sdk : Sdk) (s : Sys) (es : List Event) : Sys :=
  es.foldl (deliver sdk) s

/-- Lines 40-48 of `measure_distance`: reset the window, pulse the trigger,
set `measuring`, arm the alarm. `alarm_id` is what `add_alarm_in_us`
returns: positive when an alarm was armed. -/
def arm (alarm_id : Int) (g : Globals) : Sys :=
  let g := { g with start_time := 0 }
  let g := { g with end_time := 0 }
  let g := { g with measuring := true }
  let g := { g with failure_alarm_id := alarm_id }
  { g := g, armed := if 0 < alarm_id then some alarm_id else none, log := [] }

/-- The loop `while (measuring)`: interrupts are delivered one at a time
until `measuring` is false; `none` when the interrupts run out first (the
loop keeps spinning). -/
def wait (sdk : Sdk) : List Event → Sys → Option Sys
  | [], s => if s.g.measuring then none else some s
  | e :: es, s => if s.g.measuring then wait sdk es (deliver sdk s e) else some s

/-- Lines 54-60 of `measure_distance` when no interrupt is handled between
line 54 and line 55: the value returned for the window `g` read after the
wait. -/
def result (g : Globals) : F32 :=
  if g.start_time < g.end_time then
    let pulse_width := g.end_time - g.start_time
    let distance := F32.div (F32.mul (F32.ofNat pulse_width) F32.c_0_0343) F32.two
    distance
  else
    F32.minus_one

/-- Subtraction of two `uint64_t` values (operands below `2 ^ 64`): wraps
when the second operand is the larger. -/
def sub_u64 (a b : Nat) : Nat :=
  if b ≤ a then a - b else (2 ^ 64 - (b - a) % 2 ^ 64) % 2 ^ 64

/-- Lines 54-60 of `measure_distance` with the globals as the test of line 54
reads them (`g54`) and as the subtraction of line 55 reads them (`g55`). -/
def result_at (g54 g55 : Globals) : F32 :=
  if g54.start_time < g54.end_time then
    let pulse_width := sub_u64 g55.end_time g55.start_time
    let distance := F32.div (F32.mul (F32.ofNat pulse_width) F32.c_0_0343) F32.two
    distance
  else
    F32.minus_one

/-- The function `measure_distance`: the returned value and the state it
leaves behind. `events` are the interrupts offered to the wait loop (those
after the one that ends the loop are not consumed), `late54` the interrupts
handled after the loop and before the test of line 54 reads the globals,
`late55` those handled between line 54 and line 55. -/
def measure_distance (sdk : Sdk) (alarm_id : Int) (events late54 late55 : List Event)
    (g : Globals) : Option (F32 × Sys) :=
  (wait sdk events (arm alarm_id g)).map (fun s =>
    let s54 := deliver_all sdk s late54
    let s55 := deliver_all sdk s54 late55
    (result_at s54.g s55.g, s55))

/-! ## Polling loop and failure-streak monitor -/

/-- The locals `sensor_running`, `consecutive_failures`, `alarm_triggered`
of `main`. -/
structure Monitor where
  sensor_running : Bool
  consecutive_failures : Int
  alarm_triggered : Bool
deriving DecidableEq

/-- The values of the locals before the loop. -/
def Monitor.init : Monitor := ⟨false, 0, false⟩

/-- The lines `main` prints. -/
inductive Msg where
  | started
  | stopped
  | recovered
  | reading (time_str : String) (distance : F32)
  | failure (time_str : String)
  | alarm
deriving DecidableEq

/-- Increment of an `int`, wrapping at 32 bits. -/
def int_incr (c : Int) : Int := (c + 1 + 2 ^ 31) % 2 ^ 32 - 2 ^ 31

/-- Lines 125-140 of `main`: the monitor fed with the value `distance`
returned by `measure_distance`. -/
def monitor_step (time_str : String) (distance : F32) (m : Monitor) : Monitor × List Msg :=
  if F32.lt F32.zero distance then
    let m := { m with consecutive_failures := 0 }
    if m.alarm_triggered then
      ({ m with alarm_triggered := false }, [Msg.recovered, Msg.reading time_str distance])
    else
      (m, [Msg.reading time_str distance])
  else
    let m := { m with consecutive_failures := int_incr m.consecutive_failures }
    if 3 ≤ m.consecutive_failures ∧ m.alarm_triggered = false then
      ({ m with alarm_triggered := true }, [Msg.failure time_str, Msg.alarm])
    else
      (m, [Msg.failure time_str])

/-- One reading: the time string of the RTC and the measured value. -/
structure Reading where
  time_str : String
  distance : F32
deriving DecidableEq

/-- One pass of the loop of `main`: `ch` is what `getchar_timeout_us(0)`
returns and `r` what `get_time_str` and `measure_distance` produce when the
sensor is running. -/
def main_iter (sdk : Sdk) (ch : Int) (r : Reading) (m : Monitor) : Monitor × List Msg :=
  let p : Monitor × List Msg :=
    if ch ≠ sdk.PICO_ERROR_TIMEOUT then
      if ch = 115 then
        ({ m with sensor_running := true, consecutive_failures := 0, alarm_triggered := false },
          [Msg.started])
      else if ch = 112 then
        ({ m with sensor_running := false }, [Msg.stopped])
      else (m, [])
    else (m, [])
  if p.1.sensor_running then
    let q := monitor_step r.time_str r.distance p.1
    (q.1, p.2 ++ q.2)
  else p

/-- The monitor run over a stream of readings: the final state and the
lines printed at each index. -/
def monitor_run : Monitor → List Reading → Monitor × List (List Msg)
  | m, [] => (m, [])
  | m, r :: rs =>
    let p := monitor_step r.time_str r.distance m
    let q := monitor_run p.1 rs
    (q.1, p.2 :: q.2)

/-- The loop of `main` run over a sequence of inputs. -/
def main_run (sdk : Sdk) : Monitor → List (Int × Reading) → Monitor
  | m, [] => m
  | m, x :: xs => main_run sdk (main_iter sdk x.1 x.2 m).1 xs

/-- Number of "ALARME" lines. -/
def alarms (out : List Msg) : Nat := out.count Msg.alarm

/-- Number of "Sensor reconectado" lines. -/
def recoveries (out : List Msg) : Nat := out.count Msg.recovered


/-! ## Words of the specification about streams of outcomes -/

/-- The test `distance > 0` of `main` on a reading: success. -/
def is_ok (r : Reading) : Bool := F32.lt F32.zero r.distance

/-- Length of the run of consecutive failures that ends a stream. -/
def trailing_failures (l : List Reading) : Nat :=
  (l.reverse.takeWhile (fun r => !is_ok r)).length

/-- Length of the run of consecutive failures right before index `i`. -/
def failures_before (rs : List Reading) (i : Nat) : Nat :=
  trailing_failures (rs.take i)

/-- Outcome `i` is the third failure of a run of consecutive failures. -/
def third_failure_of_run (rs : List Reading) (i : Nat) : Bool :=
  match rs[i]? with
  | some r => !is_ok r && failures_before rs i == 2
  | none => false

/-- Outcome `i` is a success directly after a run of at least three
consecutive failures. -/
def success_after_long_run (rs : List Reading) (i : Nat) : Bool :=
  match rs[i]? with
  | some r => is_ok r && decide (3 ≤ failures_before rs i)
  | none => false

/-! ## Words of the specification about the timeout guard -/

/-- The event is an edge interrupt that `echo_callback` handles in its
falling-edge branch. -/
def is_falling (sdk : Sdk) : Event → Bool
  | Event.irq events _ =>
    decide (events &&& sdk.GPIO_IRQ_EDGE_RISE = 0 ∧ events &&& sdk.GPIO_IRQ_EDGE_FALL ≠ 0)
  | Event.expire => false

/-- The event ends the wait: an alarm expiry or a falling edge. -/
def resolving (sdk : Sdk) (e : Event) : Bool :=
  decide (e = Event.expire) || is_falling sdk e

/-- The guard armed with `id` is either still pending (measurement in
progress, nothing done yet) or resolved by exactly one effect. -/
def guard_inv (id : Int) (s : Sys) : Prop :=
  (s.g.measuring = true ∧ s.armed = some id ∧ s.g.failure_alarm_id = id ∧ s.log = []) ∨
  (s.g.measuring = false ∧ s.armed = none ∧ s.g.failure_alarm_id = -1 ∧
    (s.log = [Effect.reset_by_timeout] ∨ s.log = [Effect.cancel_by_edge id]))

/-! ## Monitor: basic facts -/

theorem int_incr_eq (c : Int) (h0 : 0 ≤ c) (h1 : c < 2 ^ 31 - 1) : int_incr c = c + 1 := by
  unfold int_incr
  omega

theorem monitor_step_ok (t : String) (d : F32) (m : Monitor) (h : F32.lt F32.zero d = true) :
    monitor_step t d m =
      ({ m with consecutive_failures := 0, alarm_triggered := false },
        if m.alarm_triggered then [Msg.recovered, Msg.reading t d] else [Msg.reading t d]) := by
  unfold monitor_step
  cases ha : m.alarm_triggered <;> simp [h, ha]

theorem monitor_step_fail (t : String) (d : F32) (m : Monitor) (h : F32.lt F32.zero d = false) :
    monitor_step t d m =
      if 3 ≤ int_incr m.consecutive_failures ∧ m.alarm_triggered = false then
        ({ m with consecutive_failures := int_incr m.consecutive_failures,
                  alarm_triggered := true }, [Msg.failure t, Msg.alarm])
      else
        ({ m with consecutive_failures := int_incr m.consecutive_failures }, [Msg.failure t]) := by
  unfold monitor_step
  simp [h]

theorem alarms_fail_line (t : String) : alarms [Msg.failure t] = 0 := by
  simp [alarms]

theorem alarms_fail_alarm (t : String) : alarms [Msg.failure t, Msg.alarm] = 1 := by
  simp [alarms]

theorem alarms_reading (t : String) (d : F32) : alarms [Msg.reading t d] = 0 := by
  simp [alarms]

theorem alarms_recovered (t : String) (d : F32) : alarms [Msg.recovered, Msg.reading t d] = 0 := by
  simp [alarms]

theorem recoveries_fail_line (t : String) : recoveries [Msg.failure t] = 0 := by
  simp [recoveries]

theorem recoveries_fail_alarm (t : String) : recoveries [Msg.failure t, Msg.alarm] = 0 := by
  simp [recoveries]

theorem recoveries_reading (t : String) (d : F32) : recoveries [Msg.reading t d] = 0 := by
  simp [recoveries]

theorem recoveries_recovered (t : String) (d : F32) :
    recoveries [Msg.recovered, Msg.reading t d] = 1 := by
  simp [recoveries]


theorem monitor_run_nil (m : Monitor) : monitor_run m [] = (m, []) := rfl

theorem monitor_run_cons (m : Monitor) (r : Reading) (rs : List Reading) :
    monitor_run m (r :: rs) =
      ((monitor_run (monitor_step r.time_str r.distance m).1 rs).1,
        (monitor_step r.time_str r.distance m).2 ::
          (monitor_run (monitor_step r.time_str r.distance m).1 rs).2) := rfl

/-! ## Monitor: claims -/

/-- C1: from the initial monitor state (count 0, no alarm), fewer than three
consecutive failed readings leave `alarm_triggered` false and print no
"ALARME" line; the third consecutive failure sets `alarm_triggered` and
prints the "ALARME" line exactly once, at that step. -/
theorem C1_third_failure_raises_alarm (running : Bool) (rs : List Reading)
    (hfail : ∀ r ∈ rs, F32.lt F32.zero r.distance = false) :
    (rs.length < 3 →
      (monitor_run ⟨running, 0, false⟩ rs).1.alarm_triggered = false ∧
      (monitor_run ⟨running, 0, false⟩ rs).2.map alarms = List.replicate rs.length 0) ∧
    (rs.length = 3 →
      (monitor_run ⟨running, 0, false⟩ rs).1.alarm_triggered = true ∧
      (monitor_run ⟨running, 0, false⟩ rs).2.map alarms = [0, 0, 1]) := by
  have h1 : int_incr 0 = 1 := by decide
  have h2 : int_incr 1 = 2 := by decide
  have h3 : int_incr 2 = 3 := by decide
  match rs, hfail with
  | [], _ => simp [monitor_run_nil]
  | [a], hf =>
    have ha := hf a (by simp)
    simp [monitor_run_cons, monitor_run_nil, monitor_step_fail, ha, h1, alarms_fail_line]
  | [a, b], hf =>
    have ha := hf a (by simp)
    have hb := hf b (by simp)
    simp [monitor_run_cons, monitor_run_nil, monitor_step_fail, ha, hb, h1, h2, alarms_fail_line]
  | [a, b, c], hf =>
    have ha := hf a (by simp)
    have hb := hf b (by simp)
    have hc := hf c (by simp)
    simp [monitor_run_cons, monitor_run_nil, monitor_step_fail, ha, hb, hc, h1, h2, h3,
      alarms_fail_line, alarms_fail_alarm]
  | _ :: _ :: _ :: _ :: _, _ =>
    constructor
    · intro h; simp at h; omega
    · intro h; simp at h

/-- Witness of C1: three readings of `-1.0f`. -/
theorem C1_third_failure_raises_alarm_witness :
    (monitor_run ⟨true, 0, false⟩ [⟨"22:10:00", F32.minus_one⟩, ⟨"22:10:01", F32.minus_one⟩,
      ⟨"22:10:02", F32.minus_one⟩]).1.alarm_triggered = true ∧
    (monitor_run ⟨true, 0, false⟩ [⟨"22:10:00", F32.minus_one⟩, ⟨"22:10:01", F32.minus_one⟩,
      ⟨"22:10:02", F32.minus_one⟩]).2.map alarms = [0, 0, 1] :=
  (C1_third_failure_raises_alarm true
    [⟨"22:10:00", F32.minus_one⟩, ⟨"22:10:01", F32.minus_one⟩, ⟨"22:10:02", F32.minus_one⟩]
    (by decide)).2 rfl

/-- C2: in every monitor state a successful reading (`distance > 0`) sets
`consecutive_failures` to 0 and leaves `alarm_triggered` false; it prints
exactly one "Sensor reconectado" line when `alarm_triggered` was true and
none when it was false, and never an "ALARME" line. -/
theorem C2_success_resets_and_recovers (t : String) (d : F32) (m : Monitor)
    (hok : F32.lt F32.zero d = true) :
    (monitor_step t d m).1.consecutive_failures = 0 ∧
    (monitor_step t d m).1.alarm_triggered = false ∧
    (monitor_step t d m).1.sensor_running = m.sensor_running ∧
    alarms (monitor_step t d m).2 = 0 ∧
    (m.alarm_triggered = true → recoveries (monitor_step t d m).2 = 1) ∧
    (m.alarm_triggered = false → recoveries (monitor_step t d m).2 = 0) := by
  rw [monitor_step_ok t d m hok]
  cases ha : m.alarm_triggered <;>
    simp [alarms_reading, alarms_recovered, recoveries_reading, recoveries_recovered]

/-- Witness of C2: a reading of `2.0f` in an alarmed state with count 7. -/
theorem C2_success_resets_and_recovers_witness :
    (monitor_step "22:10:09" F32.two ⟨true, 7, true⟩).1.consecutive_failures = 0 ∧
    (monitor_step "22:10:09" F32.two ⟨true, 7, true⟩).1.alarm_triggered = false ∧
    (monitor_step "22:10:09" F32.two ⟨true, 7, true⟩).1.sensor_running = true ∧
    alarms (monitor_step "22:10:09" F32.two ⟨true, 7, true⟩).2 = 0 ∧
    (true = true → recoveries (monitor_step "22:10:09" F32.two ⟨true, 7, true⟩).2 = 1) ∧
    (true = false → recoveries (monitor_step "22:10:09" F32.two ⟨true, 7, true⟩).2 = 0) :=
  C2_success_resets_and_recovers "22:10:09" F32.two ⟨true, 7, true⟩ (by decide)

/-- C4: the notifications are edge-triggered. From a state with
`alarm_triggered` true, any number of further failures prints no "ALARME"
line and leaves `alarm_triggered` true; from a state with `alarm_triggered`
false, any number of successes prints no "ALARME" and no "Sensor
reconectado" line and leaves `alarm_triggered` false. -/
theorem C4_edge_triggered (m : Monitor) (rs : List Reading) :
    (m.alarm_triggered = true → (∀ r ∈ rs, F32.lt F32.zero r.distance = false) →
      (monitor_run m rs).1.alarm_triggered = true ∧
      ∀ out ∈ (monitor_run m rs).2, alarms out = 0) ∧
    (m.alarm_triggered = false → (∀ r ∈ rs, F32.lt F32.zero r.distance = true) →
      (monitor_run m rs).1.alarm_triggered = false ∧
      ∀ out ∈ (monitor_run m rs).2, alarms out = 0 ∧ recoveries out = 0) := by
  induction rs generalizing m with
  | nil => simp [monitor_run_nil]
  | cons r rs ih =>
    constructor
    · intro ha hf
      have hr := hf r (by simp)
      have hrest : ∀ x ∈ rs, F32.lt F32.zero x.distance = false :=
        fun x hx => hf x (by simp [hx])
      have hstep : monitor_step r.time_str r.distance m =
          ({ m with consecutive_failures := int_incr m.consecutive_failures },
            [Msg.failure r.time_str]) := by
        rw [monitor_step_fail _ _ _ hr]; simp [ha]
      have := (ih { m with consecutive_failures := int_incr m.consecutive_failures }).1 ha hrest
      rw [monitor_run_cons, hstep]
      refine ⟨this.1, ?_⟩
      intro out hout
      rcases List.mem_cons.1 hout with h | h
      · rw [h]; exact alarms_fail_line _
      · exact this.2 out h
    · intro ha hf
      have hr := hf r (by simp)
      have hrest : ∀ x ∈ rs, F32.lt F32.zero x.distance = true :=
        fun x hx => hf x (by simp [hx])
      have hstep : monitor_step r.time_str r.distance m =
          ({ m with consecutive_failures := 0, alarm_triggered := false },
            [Msg.reading r.time_str r.distance]) := by
        rw [monitor_step_ok _ _ _ hr]; simp [ha]
      have := (ih { m with consecutive_failures := 0, alarm_triggered := false }).2 rfl hrest
      rw [monitor_run_cons, hstep]
      refine ⟨this.1, ?_⟩
      intro out hout
      rcases List.mem_cons.1 hout with h | h
      · rw [h]; exact ⟨alarms_reading _ _, recoveries_reading _ _⟩
      · exact this.2 out h

/-- Witness of C4: five more failures in an alarmed state. -/
theorem C4_edge_triggered_witness :
    (monitor_run ⟨true, 3, true⟩ (List.replicate 5 ⟨"22:10:03", F32.minus_one⟩)).1.alarm_triggered
        = true ∧
      ∀ out ∈ (monitor_run ⟨true, 3, true⟩
        (List.replicate 5 ⟨"22:10:03", F32.minus_one⟩)).2, alarms out = 0 :=
  (C4_edge_triggered ⟨true, 3, true⟩ (List.replicate 5 ⟨"22:10:03", F32.minus_one⟩)).1 rfl
    (by decide)

/-! ## Monitor: streams -/

theorem monitor_run_append (m : Monitor) (l : List Reading) (r : Reading) :
    monitor_run m (l ++ [r]) =
      ((monitor_step r.time_str r.distance (monitor_run m l).1).1,
        (monitor_run m l).2 ++ [(monitor_step r.time_str r.distance (monitor_run m l).1).2]) := by
  induction l generalizing m with
  | nil => simp [monitor_run_cons, monitor_run_nil]
  | cons a l ih => simp [monitor_run_cons, ih]

theorem monitor_run_getD (m : Monitor) (rs : List Reading) (i : Nat) (r : Reading)
    (h : rs[i]? = some r) :
    (monitor_run m rs).2.getD i [] =
      (monitor_step r.time_str r.distance (monitor_run m (rs.take i)).1).2 := by
  induction rs generalizing m i with
  | nil => simp at h
  | cons a rs ih =>
    cases i with
    | zero =>
      simp at h
      subst h
      simp [monitor_run_cons, monitor_run_nil]
    | succ i =>
      simp at h
      simpa [monitor_run_cons] using ih (monitor_step a.time_str a.distance m).1 i h

theorem monitor_run_getD_none (m : Monitor) (rs : List Reading) (i : Nat)
    (h : rs[i]? = none) : (monitor_run m rs).2.getD i [] = [] := by
  induction rs generalizing m i with
  | nil => simp [monitor_run_nil]
  | cons a rs ih =>
    cases i with
    | zero => simp at h
    | succ i =>
      simp at h
      simp [monitor_run_cons]
      have := ih (monitor_step a.time_str a.distance m).1 i (by simpa using h)
      simpa using this

theorem trailing_failures_append (l : List Reading) (r : Reading) :
    trailing_failures (l ++ [r]) = if is_ok r then 0 else trailing_failures l + 1 := by
  unfold trailing_failures
  cases h : is_ok r <;> simp [List.takeWhile_cons, h]

theorem trailing_failures_nil : trailing_failures [] = 0 := rfl

/-- State of the monitor after a stream, started with count 0 and no alarm:
the alarm flag tells whether the stream ends in at least three failures,
and below three the counter is the length of that run. -/
theorem monitor_state_after (running : Bool) (l : List Reading) :
    ((monitor_run ⟨running, 0, false⟩ l).1.alarm_triggered = true ↔ 3 ≤ trailing_failures l) ∧
    (trailing_failures l < 3 →
      (monitor_run ⟨running, 0, false⟩ l).1.consecutive_failures = trailing_failures l) := by
  induction l using List.reverseRecOn with
  | nil => simp [monitor_run_nil, trailing_failures_nil]
  | append_singleton l r ih =>
    rw [monitor_run_append, trailing_failures_append]
    cases hr : is_ok r
    · have hr2 : F32.lt F32.zero r.distance = false := hr
      rw [monitor_step_fail _ _ _ hr2]
      simp only [Bool.false_eq_true, if_false]
      by_cases h3 : 3 ≤ trailing_failures l
      · have ha := ih.1.2 h3
        simp [ha]
        omega
      · have hlt : trailing_failures l < 3 := by omega
        have hc := ih.2 hlt
        have ha : (monitor_run ⟨running, 0, false⟩ l).1.alarm_triggered = false := by
          cases hx : (monitor_run ⟨running, 0, false⟩ l).1.alarm_triggered
          · rfl
          · exact absurd (ih.1.1 hx) h3
        have hinc : int_incr (monitor_run ⟨running, 0, false⟩ l).1.consecutive_failures
            = trailing_failures l + 1 := by
          rw [hc]; apply int_incr_eq <;> omega
        rw [hinc, ha]
        by_cases h2 : trailing_failures l = 2
        · simp [h2]
        · have : ¬ (3 : Int) ≤ (trailing_failures l : Int) + 1 := by omega
          simp [this]
          omega
    · have hr2 : F32.lt F32.zero r.distance = true := hr
      rw [monitor_step_ok _ _ _ hr2]
      simp

/-- C3: fed from the initial state with any finite stream of outcomes, the
monitor prints one "ALARME" line at index `i` exactly when outcome `i` is the
third failure of a run of consecutive failures, one "Sensor reconectado"
line exactly when outcome `i` is a success directly after a run of at least
three failures, and neither otherwise; the stream Fail, Fail, Fail, Success
gives nothing at indices 0 and 1, "ALARME" at 2 and "Sensor reconectado" at 3. -/
theorem C3_notification_at_index (running : Bool) (rs : List Reading) (i : Nat) :
    alarms ((monitor_run ⟨running, 0, false⟩ rs).2.getD i []) =
        (if third_failure_of_run rs i then 1 else 0) ∧
    recoveries ((monitor_run ⟨running, 0, false⟩ rs).2.getD i []) =
        (if success_after_long_run rs i then 1 else 0) ∧
    (monitor_run ⟨running, 0, false⟩
        [⟨"22:10:00", F32.minus_one⟩, ⟨"22:10:01", F32.minus_one⟩,
         ⟨"22:10:02", F32.minus_one⟩, ⟨"22:10:03", F32.two⟩]).2.map
          (fun out => (alarms out, recoveries out)) = [(0, 0), (0, 0), (1, 0), (0, 1)] := by
  refine ⟨?_, ?_, ?_⟩
  · cases h : rs[i]? with
    | none =>
      rw [monitor_run_getD_none _ _ _ h]
      simp [third_failure_of_run, h, alarms]
    | some r =>
      rw [monitor_run_getD _ _ _ _ h]
      have inv := monitor_state_after running (rs.take i)
      cases hr : is_ok r
      · have hr2 : F32.lt F32.zero r.distance = false := hr
        rw [monitor_step_fail _ _ _ hr2]
        simp only [third_failure_of_run, h, hr, failures_before]
        by_cases h3 : 3 ≤ trailing_failures (rs.take i)
        · have ha := inv.1.2 h3
          have hne : ¬ trailing_failures (rs.take i) = 2 := by omega
          simp [ha, hne, alarms_fail_line]
        · have hlt : trailing_failures (rs.take i) < 3 := by omega
          have hc := inv.2 hlt
          have ha : (monitor_run ⟨running, 0, false⟩ (rs.take i)).1.alarm_triggered = false := by
            cases hx : (monitor_run ⟨running, 0, false⟩ (rs.take i)).1.alarm_triggered
            · rfl
            · exact absurd (inv.1.1 hx) h3
          have hinc : int_incr (monitor_run ⟨running, 0, false⟩ (rs.take i)).1.consecutive_failures
              = trailing_failures (rs.take i) + 1 := by
            rw [hc]; apply int_incr_eq <;> omega
          rw [hinc, ha]
          by_cases h2 : trailing_failures (rs.take i) = 2
          · simp [h2, alarms_fail_alarm]
          · have : ¬ (3 : Int) ≤ (trailing_failures (rs.take i) : Int) + 1 := by omega
            simp [this, h2, alarms_fail_line]
      · have hr2 : F32.lt F32.zero r.distance = true := hr
        rw [monitor_step_ok _ _ _ hr2]
        simp only [third_failure_of_run, h, hr]
        cases (monitor_run ⟨running, 0, false⟩ (rs.take i)).1.alarm_triggered <;>
          simp [alarms_reading, alarms_recovered]
  · cases h : rs[i]? with
    | none =>
      rw [monitor_run_getD_none _ _ _ h]
      simp [success_after_long_run, h, recoveries]
    | some r =>
      rw [monitor_run_getD _ _ _ _ h]
      have inv := monitor_state_after running (rs.take i)
      cases hr : is_ok r
      · have hr2 : F32.lt F32.zero r.distance = false := hr
        rw [monitor_step_fail _ _ _ hr2]
        simp only [success_after_long_run, h, hr]
        split <;> simp [recoveries_fail_line, recoveries_fail_alarm]
      · have hr2 : F32.lt F32.zero r.distance = true := hr
        rw [monitor_step_ok _ _ _ hr2]
        simp only [success_after_long_run, h, hr, failures_before]
        by_cases h3 : 3 ≤ trailing_failures (rs.take i)
        · have ha := inv.1.2 h3
          simp [ha, h3, recoveries_recovered]
        · have ha : (monitor_run ⟨running, 0, false⟩ (rs.take i)).1.alarm_triggered = false := by
            cases hx : (monitor_run ⟨running, 0, false⟩ (rs.take i)).1.alarm_triggered
            · rfl
            · exact absurd (inv.1.1 hx) h3
          simp [ha, h3, recoveries_reading]
  · cases running <;> decide

/-! ## Polling loop -/

theorem main_run_append (sdk : Sdk) (m : Monitor) (l : List (Int × Reading))
    (x : Int × Reading) :
    main_run sdk m (l ++ [x]) = (main_iter sdk x.1 x.2 (main_run sdk m l)).1 := by
  induction l generalizing m with
  | nil => rfl
  | cons a l ih => simp [main_run, ih]

/-- One pass of the loop keeps "alarm iff count at least 3" and a
non-negative counter, as long as the increment does not overflow. -/
theorem main_iter_invariant (sdk : Sdk) (ch : Int) (r : Reading) (m : Monitor)
    (h0 : 0 ≤ m.consecutive_failures) (h1 : m.consecutive_failures < 2 ^ 31 - 1)
    (hinv : m.alarm_triggered = true ↔ 3 ≤ m.consecutive_failures) :
    0 ≤ (main_iter sdk ch r m).1.consecutive_failures ∧
    ((main_iter sdk ch r m).1.alarm_triggered = true ↔
      3 ≤ (main_iter sdk ch r m).1.consecutive_failures) := by
  have step : ∀ m' : Monitor, 0 ≤ m'.consecutive_failures →
      m'.consecutive_failures < 2 ^ 31 - 1 →
      (m'.alarm_triggered = true ↔ 3 ≤ m'.consecutive_failures) →
      0 ≤ (monitor_step r.time_str r.distance m').1.consecutive_failures ∧
      ((monitor_step r.time_str r.distance m').1.alarm_triggered = true ↔
        3 ≤ (monitor_step r.time_str r.distance m').1.consecutive_failures) := by
    intro m' g0 g1 ginv
    cases hr : F32.lt F32.zero r.distance
    · rw [monitor_step_fail _ _ _ hr, int_incr_eq _ g0 g1]
      cases ha : m'.alarm_triggered
      · by_cases h3 : 3 ≤ m'.consecutive_failures + 1
        · simp [h3]; omega
        · simp [h3]; omega
      · have := ginv.1 ha
        simp
        omega
    · rw [monitor_step_ok _ _ _ hr]
      simp
  by_cases hch : ch = sdk.PICO_ERROR_TIMEOUT
  · cases hrun : m.sensor_running
    · simp [main_iter, hch, hrun, h0, hinv]
    · simpa [main_iter, hch, hrun] using step m h0 h1 hinv
  · by_cases hs : ch = 115
    · have := step ⟨true, 0, false⟩ (by simp) (by simp) (by simp)
      subst hs
      simpa [main_iter, hch] using this
    · by_cases hp : ch = 112
      · subst hp
        simp [main_iter, hch, h0, hinv]
      · cases hrun : m.sensor_running
        · simp [main_iter, hch, hs, hp, hrun, h0, hinv]
        · simpa [main_iter, hch, hs, hp, hrun] using step m h0 h1 hinv

/-- C10: in every state the loop of `main` reaches from its initial locals
(count 0, no alarm; the start command sets the same values) by any sequence
of inputs and readings during which the counter stays below `INT_MAX`
before each pass, `alarm_triggered` is true exactly when
`consecutive_failures >= 3`. -/
theorem C10_alarm_iff_three_failures (sdk : Sdk) (running : Bool) (xs : List (Int × Reading))
    (hno : ∀ k, k < xs.length →
      (main_run sdk ⟨running, 0, false⟩ (xs.take k)).consecutive_failures < 2 ^ 31 - 1) :
    ((main_run sdk ⟨running, 0, false⟩ xs).alarm_triggered = true ↔
      3 ≤ (main_run sdk ⟨running, 0, false⟩ xs).consecutive_failures) := by
  suffices h : 0 ≤ (main_run sdk ⟨running, 0, false⟩ xs).consecutive_failures ∧
      ((main_run sdk ⟨running, 0, false⟩ xs).alarm_triggered = true ↔
        3 ≤ (main_run sdk ⟨running, 0, false⟩ xs).consecutive_failures) from h.2
  induction xs using List.reverseRecOn with
  | nil => simp [main_run]
  | append_singleton l x ih =>
    have hl : ∀ k, k < l.length →
        (main_run sdk ⟨running, 0, false⟩ (l.take k)).consecutive_failures < 2 ^ 31 - 1 := by
      intro k hk
      have := hno k (by simp; omega)
      rwa [List.take_append_of_le_length (by omega)] at this
    have hlast := hno l.length (by simp)
    rw [List.take_left'] at hlast
    · rw [main_run_append]
      exact main_iter_invariant sdk x.1 x.2 _ (ih hl).1 hlast (ih hl).2
    · rfl

/-- Witness of C10: start command, three failures, one success. -/
theorem C10_alarm_iff_three_failures_witness :
    ((main_run pico ⟨false, 0, false⟩
        [(115, ⟨"22:10:00", F32.minus_one⟩), (-1, ⟨"22:10:01", F32.minus_one⟩),
         (-1, ⟨"22:10:02", F32.minus_one⟩), (-1, ⟨"22:10:03", F32.two⟩)]).alarm_triggered = true ↔
      3 ≤ (main_run pico ⟨false, 0, false⟩
        [(115, ⟨"22:10:00", F32.minus_one⟩), (-1, ⟨"22:10:01", F32.minus_one⟩),
         (-1, ⟨"22:10:02", F32.minus_one⟩), (-1, ⟨"22:10:03", F32.two⟩)]).consecutive_failures) :=
  C10_alarm_iff_three_failures pico false
    [(115, ⟨"22:10:00", F32.minus_one⟩), (-1, ⟨"22:10:01", F32.minus_one⟩),
     (-1, ⟨"22:10:02", F32.minus_one⟩), (-1, ⟨"22:10:03", F32.two⟩)]
    (by decide)

/-! ## Measurement cycle -/

theorem wait_of_not_measuring (sdk : Sdk) (es : List Event) (s : Sys)
    (h : s.g.measuring = false) : wait sdk es s = some s := by
  cases es <;> simp [wait, h]

theorem wait_cons_measuring (sdk : Sdk) (e : Event) (es : List Event) (s : Sys)
    (h : s.g.measuring = true) : wait sdk (e :: es) s = wait sdk es (deliver sdk s e) := by
  simp [wait, h]

theorem timer_failure_callback_eq (id : Int) (g : Globals) :
    timer_failure_callback id g = (⟨0, 0, false, -1⟩, 0) := by
  unfold timer_failure_callback
  cases h : g.measuring <;> simp [h]

theorem echo_callback_fall (sdk : Sdk) (events now : Nat) (g : Globals)
    (h1 : events &&& sdk.GPIO_IRQ_EDGE_RISE = 0) (h2 : events &&& sdk.GPIO_IRQ_EDGE_FALL ≠ 0) :
    echo_callback sdk events now g =
      if 0 ≤ g.failure_alarm_id then
        (⟨g.start_time, now, false, -1⟩, [g.failure_alarm_id])
      else (⟨g.start_time, now, false, g.failure_alarm_id⟩, []) := by
  unfold echo_callback
  simp [h1, h2]

theorem echo_callback_not_fall (sdk : Sdk) (events now : Nat) (g : Globals)
    (h : events &&& sdk.GPIO_IRQ_EDGE_RISE ≠ 0 ∨ events &&& sdk.GPIO_IRQ_EDGE_FALL = 0) :
    (echo_callback sdk events now g).2 = [] ∧
    (echo_callback sdk events now g).1.measuring = g.measuring ∧
    (echo_callback sdk events now g).1.failure_alarm_id = g.failure_alarm_id ∧
    (echo_callback sdk events now g).1.end_time = g.end_time := by
  unfold echo_callback
  by_cases h1 : events &&& sdk.GPIO_IRQ_EDGE_RISE = 0
  · have h2 : events &&& sdk.GPIO_IRQ_EDGE_FALL = 0 := by
      rcases h with h | h
      · exact absurd h1 h
      · exact h
    simp [h1, h2]
  · simp [h1]

theorem result_unset : result ⟨0, 0, false, -1⟩ = F32.minus_one := by
  simp [result]

/-- C9 (as amended): for every prior state, `echo_callback` on a falling-edge-only
event sets `end_time` to the current time and `measuring` to false and leaves
`start_time` unchanged; it calls `cancel_alarm` (once, with the stored
identifier) exactly when `failure_alarm_id` was `>= 0`, and then sets it to
`-1`; a negative `failure_alarm_id` is left as it was, so the handle is `-1`
afterwards whenever it was at least `-1` before, and with the handle `-1`
nothing is cancelled and the platform alarm is untouched. -/
theorem C9_falling_edge_effect (sdk : Sdk) (events now : Nat) (g : Globals)
    (hrise : events &&& sdk.GPIO_IRQ_EDGE_RISE = 0)
    (hfall : events &&& sdk.GPIO_IRQ_EDGE_FALL ≠ 0) :
    (echo_callback sdk events now g).1.end_time = now ∧
    (echo_callback sdk events now g).1.measuring = false ∧
    (echo_callback sdk events now g).1.start_time = g.start_time ∧
    (echo_callback sdk events now g).1.failure_alarm_id =
      (if 0 ≤ g.failure_alarm_id then -1 else g.failure_alarm_id) ∧
    (-1 ≤ g.failure_alarm_id → (echo_callback sdk events now g).1.failure_alarm_id = -1) ∧
    (echo_callback sdk events now g).2 =
      (if 0 ≤ g.failure_alarm_id then [g.failure_alarm_id] else []) ∧
    (g.failure_alarm_id = -1 → ∀ armed log,
      (deliver sdk ⟨g, armed, log⟩ (Event.irq events now)).armed = armed ∧
      (deliver sdk ⟨g, armed, log⟩ (Event.irq events now)).log = log) := by
  rw [echo_callback_fall sdk events now g hrise hfall]
  by_cases h : 0 ≤ g.failure_alarm_id
  · simp [h]
    intro h'
    omega
  · simp [h]
    constructor
    · intro h'; omega
    · intro h' armed log
      simp [deliver, echo_callback_fall sdk events now g hrise hfall, h]

/-- Witness of C9: a falling edge at time 1260 with alarm 7 pending. -/
theorem C9_falling_edge_effect_witness :
    (echo_callback pico 4 1260 ⟨100, 0, true, 7⟩).1.end_time = 1260 ∧
    (echo_callback pico 4 1260 ⟨100, 0, true, 7⟩).1.measuring = false ∧
    (echo_callback pico 4 1260 ⟨100, 0, true, 7⟩).1.start_time = 100 ∧
    (echo_callback pico 4 1260 ⟨100, 0, true, 7⟩).1.failure_alarm_id = -1 ∧
    (echo_callback pico 4 1260 ⟨100, 0, true, 7⟩).2 = [7] :=
  have h := C9_falling_edge_effect pico 4 1260 ⟨100, 0, true, 7⟩ (by decide) (by decide)
  ⟨h.1, h.2.1, h.2.2.1, h.2.2.2.1, h.2.2.2.2.2.1⟩

/-- Counterexample to C9 as stated: with `failure_alarm_id = -2` beforehand,
a falling-edge-only event leaves `failure_alarm_id = -2`, not `-1`; this is
the state `measure_distance` sets up when `add_alarm_in_us` returns the
negative value `-2`. -/
theorem C9_counterexample :
    (4 &&& pico.GPIO_IRQ_EDGE_RISE = 0 ∧ 4 &&& pico.GPIO_IRQ_EDGE_FALL ≠ 0) ∧
    (echo_callback pico 4 1260 ⟨100, 0, true, -2⟩).1.failure_alarm_id = -2 ∧
    (echo_callback pico 4 1260 ⟨100, 0, true, -2⟩).1.failure_alarm_id ≠ -1 ∧
    (deliver pico (arm (-2) Globals.init) (Event.irq 4 1260)).g.failure_alarm_id = -2 := by
  decide

theorem deliver_all_nil (sdk : Sdk) (s : Sys) : deliver_all sdk s [] = s := rfl

theorem deliver_all_cons (sdk : Sdk) (s : Sys) (e : Event) (es : List Event) :
    deliver_all sdk s (e :: es) = deliver_all sdk (deliver sdk s e) es := rfl

theorem guard_inv_arm (id : Int) (hid : 0 < id) (g : Globals) : guard_inv id (arm id g) := by
  left
  simp [arm, hid]

theorem deliver_expire_armed (sdk : Sdk) (s : Sys) (id : Int) (h : s.armed = some id) :
    deliver sdk s Event.expire = ⟨⟨0, 0, false, -1⟩, none, s.log ++ [Effect.reset_by_timeout]⟩ := by
  simp [deliver, h, timer_failure_callback_eq]

theorem deliver_expire_idle (sdk : Sdk) (s : Sys) (h : s.armed = none) :
    deliver sdk s Event.expire = s := by
  simp [deliver, h]

theorem deliver_not_falling (sdk : Sdk) (s : Sys) (events now : Nat)
    (h : is_falling sdk (Event.irq events now) = false) :
    (deliver sdk s (Event.irq events now)).g.measuring = s.g.measuring ∧
    (deliver sdk s (Event.irq events now)).g.failure_alarm_id = s.g.failure_alarm_id ∧
    (deliver sdk s (Event.irq events now)).armed = s.armed ∧
    (deliver sdk s (Event.irq events now)).log = s.log := by
  have h' : events &&& sdk.GPIO_IRQ_EDGE_RISE ≠ 0 ∨ events &&& sdk.GPIO_IRQ_EDGE_FALL = 0 := by
    simp [is_falling] at h
    by_cases h1 : events &&& sdk.GPIO_IRQ_EDGE_RISE = 0
    · right; exact h h1
    · left; exact h1
  have := echo_callback_not_fall sdk events now s.g h'
  simp [deliver, this.1, this.2.1, this.2.2.1]

theorem deliver_falling (sdk : Sdk) (s : Sys) (events now : Nat)
    (h : is_falling sdk (Event.irq events now) = true) :
    deliver sdk s (Event.irq events now) =
      if 0 ≤ s.g.failure_alarm_id then
        ⟨⟨s.g.start_time, now, false, -1⟩, cancel_alarm s.g.failure_alarm_id s.armed,
          s.log ++ [Effect.cancel_by_edge s.g.failure_alarm_id]⟩
      else ⟨⟨s.g.start_time, now, false, s.g.failure_alarm_id⟩, s.armed, s.log⟩ := by
  simp [is_falling] at h
  by_cases h0 : 0 ≤ s.g.failure_alarm_id
  · simp [deliver, echo_callback_fall sdk events now s.g h.1 h.2, h0]
  · simp [deliver, echo_callback_fall sdk events now s.g h.1 h.2, h0]

/-- Every interrupt keeps the guard invariant. -/
theorem guard_inv_deliver (sdk : Sdk) (id : Int) (hid : 0 < id) (s : Sys) (e : Event)
    (h : guard_inv id s) : guard_inv id (deliver sdk s e) := by
  cases e with
  | expire =>
    rcases h with ⟨hm, ha, hf, hl⟩ | ⟨hm, ha, hf, hl⟩
    · right
      rw [deliver_expire_armed sdk s id ha]
      simp [hl]
    · rw [deliver_expire_idle sdk s ha]
      exact Or.inr ⟨hm, ha, hf, hl⟩
  | irq events now =>
    cases hfall : is_falling sdk (Event.irq events now)
    · have := deliver_not_falling sdk s events now hfall
      unfold guard_inv
      rw [this.1, this.2.1, this.2.2.1, this.2.2.2]
      exact h
    · rw [deliver_falling sdk s events now hfall]
      rcases h with ⟨hm, ha, hf, hl⟩ | ⟨hm, ha, hf, hl⟩
      · right
        have h0 : 0 ≤ id := by omega
        simp [h0, hf, ha, hl, cancel_alarm]
      · right
        have h0 : ¬ 0 ≤ s.g.failure_alarm_id := by omega
        simp [h0, hf, ha, hl]

theorem guard_inv_deliver_all (sdk : Sdk) (id : Int) (hid : 0 < id) (es : List Event) (s : Sys)
    (h : guard_inv id s) : guard_inv id (deliver_all sdk s es) := by
  induction es generalizing s with
  | nil => exact h
  | cons e es ih =>
    rw [deliver_all_cons]
    exact ih _ (guard_inv_deliver sdk id hid s e h)

/-- Under the guard invariant an interrupt ends the measurement exactly when
it is resolving or the measurement had ended before. -/
theorem deliver_measuring (sdk : Sdk) (id : Int) (s : Sys) (e : Event)
    (h : guard_inv id s) :
    ((deliver sdk s e).g.measuring = false ↔ (s.g.measuring = false ∨ resolving sdk e = true)) := by
  cases e with
  | expire =>
    rcases h with ⟨hm, ha, hf, hl⟩ | ⟨hm, ha, hf, hl⟩
    · rw [deliver_expire_armed sdk s id ha]
      simp [resolving]
    · rw [deliver_expire_idle sdk s ha]
      simp [resolving, hm]
  | irq events now =>
    cases hfall : is_falling sdk (Event.irq events now)
    · have := deliver_not_falling sdk s events now hfall
      rw [this.1]
      simp [resolving, hfall]
    · rw [deliver_falling sdk s events now hfall]
      by_cases h0 : 0 ≤ s.g.failure_alarm_id <;> simp [h0, resolving, hfall]

theorem deliver_all_measuring (sdk : Sdk) (id : Int) (hid : 0 < id) (es : List Event) (s : Sys)
    (h : guard_inv id s) :
    ((deliver_all sdk s es).g.measuring = false ↔
      (s.g.measuring = false ∨ ∃ e ∈ es, resolving sdk e = true)) := by
  induction es generalizing s with
  | nil => simp [deliver_all_nil]
  | cons e es ih =>
    rw [deliver_all_cons, ih _ (guard_inv_deliver sdk id hid s e h),
      deliver_measuring sdk id s e h]
    simp only [List.mem_cons, exists_eq_or_imp]
    tauto

theorem wait_guard_inv (sdk : Sdk) (id : Int) (hid : 0 < id) (es : List Event) (s s' : Sys)
    (h : guard_inv id s) (hw : wait sdk es s = some s') :
    guard_inv id s' ∧ s'.g.measuring = false := by
  induction es generalizing s with
  | nil =>
    cases hm : s.g.measuring
    · simp [wait, hm] at hw
      subst hw
      exact ⟨h, hm⟩
    · simp [wait, hm] at hw
  | cons e es ih =>
    cases hm : s.g.measuring
    · rw [wait_of_not_measuring sdk _ s hm] at hw
      cases hw
      exact ⟨h, hm⟩
    · rw [wait_cons_measuring sdk e es s hm] at hw
      exact ih _ (guard_inv_deliver sdk id hid s e h) hw

theorem wait_returns (sdk : Sdk) (id : Int) (hid : 0 < id) (es : List Event) (s : Sys)
    (h : guard_inv id s) (hres : ∃ e ∈ es, resolving sdk e = true) :
    (wait sdk es s).isSome = true := by
  induction es generalizing s with
  | nil => simp at hres
  | cons e es ih =>
    cases hm : s.g.measuring
    · rw [wait_of_not_measuring sdk _ s hm]; rfl
    · rw [wait_cons_measuring sdk e es s hm]
      by_cases he : resolving sdk e = true
      · have := (deliver_measuring sdk id s e h).2 (Or.inr he)
        rw [wait_of_not_measuring sdk _ _ this]; rfl
      · apply ih _ (guard_inv_deliver sdk id hid s e h)
        rcases hres with ⟨x, hx, hxr⟩
        rcases List.mem_cons.1 hx with hx | hx
        · subst hx; exact absurd hxr he
        · exact ⟨x, hx, hxr⟩

theorem guard_inv_log (id : Int) (s : Sys) (h : guard_inv id s) :
    (s.log = [] ∨ s.log = [Effect.reset_by_timeout] ∨ s.log = [Effect.cancel_by_edge id]) ∧
    (s.log.length = 1 ↔ s.g.measuring = false) := by
  rcases h with ⟨hm, _, _, hl⟩ | ⟨hm, _, _, hl | hl⟩ <;> simp [hm, hl]

theorem guard_inv_resolved (id : Int) (s : Sys) (h : guard_inv id s)
    (hm : s.g.measuring = false) :
    s.g.failure_alarm_id = -1 ∧ s.armed = none ∧
    (s.log = [Effect.reset_by_timeout] ∨ s.log = [Effect.cancel_by_edge id]) := by
  rcases h with ⟨hm', _⟩ | ⟨_, ha, hf, hl⟩
  · rw [hm] at hm'; cases hm'
  · exact ⟨hf, ha, hl⟩

/-- After the wait, whatever further interrupts are handled, the guard stays
resolved by the one effect. -/
theorem wait_then_late (sdk : Sdk) (id : Int) (hid : 0 < id) (es late : List Event)
    (s s' : Sys) (h : guard_inv id s) (hw : wait sdk es s = some s') :
    guard_inv id (deliver_all sdk s' late) ∧ (deliver_all sdk s' late).g.measuring = false := by
  have h' := wait_guard_inv sdk id hid es s s' h hw
  exact ⟨guard_inv_deliver_all sdk id hid late s' h'.1,
    (deliver_all_measuring sdk id hid late s' h'.1).2 (Or.inl h'.2)⟩

/-- C8: after `measure_distance` armed the alarm (`add_alarm_in_us` returned
a positive identifier), whatever edge and expiry interrupts are delivered,
the history of guard effects is empty, one reset by `timer_failure_callback`,
or one `cancel_alarm` by the falling-edge branch: never both, never one
twice. Exactly one effect has happened precisely when `measuring` is false,
which is precisely when a falling edge or an expiry was among the
interrupts; so `measure_distance` returns as soon as such an interrupt is
delivered, and whenever it returns, whatever interrupts were handled after
the loop, exactly one of the two has happened. -/
theorem C8_exactly_one_resolution (sdk : Sdk) (id : Int) (hid : 0 < id) (g0 : Globals)
    (es : List Event) :
    ((deliver_all sdk (arm id g0) es).log = [] ∨
      (deliver_all sdk (arm id g0) es).log = [Effect.reset_by_timeout] ∨
      (deliver_all sdk (arm id g0) es).log = [Effect.cancel_by_edge id]) ∧
    ((deliver_all sdk (arm id g0) es).log.length = 1 ↔
      (deliver_all sdk (arm id g0) es).g.measuring = false) ∧
    ((deliver_all sdk (arm id g0) es).log.length = 1 ↔ ∃ e ∈ es, resolving sdk e = true) ∧
    ((∃ e ∈ es, resolving sdk e = true) → ∀ late54 late55,
      (measure_distance sdk id es late54 late55 g0).isSome = true) ∧
    (∀ late54 late55 d s, measure_distance sdk id es late54 late55 g0 = some (d, s) →
      (s.log = [Effect.reset_by_timeout] ∨ s.log = [Effect.cancel_by_edge id])) := by
  have harm := guard_inv_arm id hid g0
  have hall := guard_inv_deliver_all sdk id hid es _ harm
  have hlog := guard_inv_log id _ hall
  refine ⟨hlog.1, hlog.2, ?_, ?_, ?_⟩
  · rw [hlog.2, deliver_all_measuring sdk id hid es _ harm]
    simp [arm]
  · intro hres late54 late55
    have := wait_returns sdk id hid es _ harm hres
    simpa [measure_distance] using this
  · intro late54 late55 d s hmd
    simp only [measure_distance, Option.map_eq_some'] at hmd
    rcases hmd with ⟨s0, hw, heq⟩
    have hs : deliver_all sdk (deliver_all sdk s0 late54) late55 = s := by
      have := congrArg Prod.snd heq
      simpa using this
    subst hs
    have h54 := wait_then_late sdk id hid es late54 _ s0 harm hw
    have h55 := guard_inv_deliver_all sdk id hid late55 _ h54.1
    have hm55 := (deliver_all_measuring sdk id hid late55 _ h54.1).2 (Or.inl h54.2)
    exact (guard_inv_resolved id _ h55 hm55).2.2

/-- Witness of C8: rising edge, falling edge, then a late expiry and a late
falling edge. -/
theorem C8_exactly_one_resolution_witness :
    (deliver_all pico (arm 1 Globals.init)
      [Event.irq 8 100, Event.irq 4 1260, Event.expire, Event.irq 4 1300]).log
        = [Effect.cancel_by_edge 1] ∧
    (measure_distance pico 1
      [Event.irq 8 100, Event.irq 4 1260, Event.expire, Event.irq 4 1300]
      [Event.expire] [Event.irq 4 1300] Globals.init).isSome = true :=
  have h := C8_exactly_one_resolution pico 1 (by decide) Globals.init
    [Event.irq 8 100, Event.irq 4 1260, Event.expire, Event.irq 4 1300]
  ⟨by decide,
    h.2.2.2.1 ⟨Event.irq 4 1260, by decide, by decide⟩ [Event.expire] [Event.irq 4 1300]⟩

theorem wait_until_expiry (sdk : Sdk) (id : Int) (pre rest : List Event) (s : Sys)
    (hm : s.g.measuring = true) (ha : s.armed = some id)
    (hpre : ∀ e ∈ pre, is_falling sdk e = false) :
    ∃ s', wait sdk (pre ++ Event.expire :: rest) s = some s' ∧
      s'.g = ⟨0, 0, false, -1⟩ ∧ s'.armed = none := by
  induction pre generalizing s with
  | nil =>
    refine ⟨deliver sdk s Event.expire, ?_, ?_, ?_⟩
    · rw [List.nil_append, wait_cons_measuring sdk _ _ s hm]
      apply wait_of_not_measuring
      rw [deliver_expire_armed sdk s id ha]
    · rw [deliver_expire_armed sdk s id ha]
    · rw [deliver_expire_armed sdk s id ha]
  | cons e pre ih =>
    rw [List.cons_append, wait_cons_measuring sdk _ _ s hm]
    have hpre' : ∀ x ∈ pre, is_falling sdk x = false := fun x hx => hpre x (by simp [hx])
    cases e with
    | expire =>
      refine ⟨deliver sdk s Event.expire, ?_, ?_, ?_⟩
      · apply wait_of_not_measuring
        rw [deliver_expire_armed sdk s id ha]
      · rw [deliver_expire_armed sdk s id ha]
      · rw [deliver_expire_armed sdk s id ha]
    | irq events now =>
      have hnf := deliver_not_falling sdk s events now (hpre _ (by simp))
      exact ih _ (by rw [hnf.1]; exact hm) (by rw [hnf.2.2.1]; exact ha) hpre'

theorem deliver_not_falling_end (sdk : Sdk) (s : Sys) (events now : Nat)
    (h : is_falling sdk (Event.irq events now) = false) :
    (deliver sdk s (Event.irq events now)).g.end_time = s.g.end_time := by
  have h' : events &&& sdk.GPIO_IRQ_EDGE_RISE ≠ 0 ∨ events &&& sdk.GPIO_IRQ_EDGE_FALL = 0 := by
    simp [is_falling] at h
    by_cases h1 : events &&& sdk.GPIO_IRQ_EDGE_RISE = 0
    · right; exact h h1
    · left; exact h1
  have := echo_callback_not_fall sdk events now s.g h'
  simp [deliver, this.2.2.2]

/-- With no alarm pending, interrupts other than falling edges leave
`end_time` as it is. -/
theorem deliver_all_no_falling (sdk : Sdk) (es : List Event) (s : Sys)
    (ha : s.armed = none) (h : ∀ e ∈ es, is_falling sdk e = false) :
    (deliver_all sdk s es).g.end_time = s.g.end_time := by
  induction es generalizing s with
  | nil => rfl
  | cons e es ih =>
    rw [deliver_all_cons]
    have hes : ∀ x ∈ es, is_falling sdk x = false := fun x hx => h x (by simp [hx])
    cases e with
    | expire =>
      rw [deliver_expire_idle sdk s ha]
      exact ih s ha hes
    | irq events now =>
      have hf := h (Event.irq events now) (by simp)
      have hnf := deliver_not_falling sdk s events now hf
      rw [ih _ (by rw [hnf.2.2.1]; exact ha) hes]
      exact deliver_not_falling_end sdk s events now hf

theorem result_at_invalid (g54 g55 : Globals) (h : g54.end_time ≤ g54.start_time) :
    result_at g54 g55 = F32.minus_one := by
  have : ¬ g54.start_time < g54.end_time := by omega
  simp [result_at, this]

theorem result_at_self (g : Globals) : result_at g g = result g := by
  unfold result_at result
  by_cases h : g.start_time < g.end_time
  · have hle : g.start_time ≤ g.end_time := le_of_lt h
    simp [h, sub_u64, hle]
  · simp [h]

/-- C6 (as amended): in a cycle with the alarm armed where
`timer_failure_callback` runs before any falling edge (after any rising edges
or none), the wait loop ends in the state `measuring = false`,
`start_time = 0`, `end_time = 0`, `failure_alarm_id = -1`, and running the
callback again leaves that state as it is. `measure_distance` returns the
failure value `-1.0f` provided no falling edge is handled between the
callback and the test of line 54 (whatever is handled after that test), and
then `measuring = false` and `failure_alarm_id = -1` still hold; with no
interrupt at all after the loop the state it leaves is the reset one. -/
theorem C6_timeout_resets_window (sdk : Sdk) (id : Int) (hid : 0 < id) (g0 : Globals)
    (pre rest late54 late55 : List Event)
    (hpre : ∀ e ∈ pre, is_falling sdk e = false)
    (hlate : ∀ e ∈ late54, is_falling sdk e = false) :
    (∃ s, wait sdk (pre ++ Event.expire :: rest) (arm id g0) = some s ∧
      s.g = ⟨0, 0, false, -1⟩ ∧ ∀ id', timer_failure_callback id' s.g = (s.g, 0)) ∧
    (∃ s, measure_distance sdk id (pre ++ Event.expire :: rest) late54 late55 g0
        = some (F32.minus_one, s) ∧
      s.g.measuring = false ∧ s.g.failure_alarm_id = -1) ∧
    (∃ s, measure_distance sdk id (pre ++ Event.expire :: rest) [] [] g0
        = some (F32.minus_one, s) ∧
      s.g = ⟨0, 0, false, -1⟩) := by
  have harm : (arm id g0).g.measuring = true ∧ (arm id g0).armed = some id := by
    simp [arm, hid]
  obtain ⟨s, hw, hg, ha⟩ := wait_until_expiry sdk id pre rest (arm id g0) harm.1 harm.2 hpre
  refine ⟨⟨s, hw, hg, ?_⟩, ?_, ?_⟩
  · intro id'
    rw [timer_failure_callback_eq, hg]
  · have hend := deliver_all_no_falling sdk late54 s ha hlate
    have h54 := wait_then_late sdk id hid _ late54 _ s (guard_inv_arm id hid g0) hw
    have h55 := guard_inv_deliver_all sdk id hid late55 _ h54.1
    have hm55 := (deliver_all_measuring sdk id hid late55 _ h54.1).2 (Or.inl h54.2)
    refine ⟨deliver_all sdk (deliver_all sdk s late54) late55, ?_, hm55,
      (guard_inv_resolved id _ h55 hm55).1⟩
    have hres : result_at (deliver_all sdk s late54).g
        (deliver_all sdk (deliver_all sdk s late54) late55).g = F32.minus_one := by
      apply result_at_invalid
      rw [hend, hg]
      exact Nat.zero_le _
    simp [measure_distance, hw, hres]
  · refine ⟨s, ?_, hg⟩
    have hres : result_at s.g s.g = F32.minus_one := by
      rw [result_at_self, hg, result_unset]
    simp [measure_distance, hw, deliver_all_nil, hres]

/-- Witness of C6: rising edge at time 100, no falling edge, expiry; a late
rising edge before the test and a late falling edge after it. -/
theorem C6_timeout_resets_window_witness :
    (∃ s, wait pico ([Event.irq 8 100] ++ Event.expire :: []) (arm 1 Globals.init) = some s ∧
      s.g = ⟨0, 0, false, -1⟩ ∧ ∀ id', timer_failure_callback id' s.g = (s.g, 0)) ∧
    (∃ s, measure_distance pico 1 ([Event.irq 8 100] ++ Event.expire :: [])
        [Event.irq 8 30050] [Event.irq 4 30101] Globals.init = some (F32.minus_one, s) ∧
      s.g.measuring = false ∧ s.g.failure_alarm_id = -1) ∧
    (∃ s, measure_distance pico 1 ([Event.irq 8 100] ++ Event.expire :: []) [] []
        Globals.init = some (F32.minus_one, s) ∧
      s.g = ⟨0, 0, false, -1⟩) :=
  C6_timeout_resets_window pico 1 (by decide) Globals.init [Event.irq 8 100] []
    [Event.irq 8 30050] [Event.irq 4 30101] (by decide) (by decide)

/-- Counterexample to C6 as stated: rising edge at time 100, no falling edge,
expiry (the callback runs before any falling edge), then a falling edge at
time 30101 handled before line 54 reads the globals. `measure_distance`
returns `8457947 * 2 ^ (-14)` (516.2...), a value `> 0`, not `-1.0f`, and
leaves `end_time = 30101`, not 0. -/
theorem C6_counterexample :
    (∀ e ∈ [Event.irq 8 100], is_falling pico e = false) ∧
    (measure_distance pico 1 ([Event.irq 8 100] ++ Event.expire :: [])
        [Event.irq 4 30101] [] Globals.init).map Prod.fst = some ⟨8457947, -14⟩ ∧
    (measure_distance pico 1 ([Event.irq 8 100] ++ Event.expire :: [])
        [Event.irq 4 30101] [] Globals.init).map Prod.fst ≠ some F32.minus_one ∧
    F32.lt F32.zero ⟨8457947, -14⟩ = true ∧
    (measure_distance pico 1 ([Event.irq 8 100] ++ Event.expire :: [])
        [Event.irq 4 30101] [] Globals.init).map (fun p => p.2.g)
      = some ⟨0, 30101, false, -1⟩ := by
  decide

/-! ## Single-precision arithmetic: rounding -/

namespace F32

theorem ilog2_spec (fuel n : Nat) (h1 : 1 ≤ n) (h2 : n ≤ fuel) :
    2 ^ ilog2 fuel n ≤ n ∧ n < 2 ^ (ilog2 fuel n + 1) := by
  induction fuel generalizing n with
  | zero => omega
  | succ fuel ih =>
    unfold ilog2
    by_cases h : n < 2
    · simp [h]; omega
    · simp only [h, if_false]
      have := ih (n / 2) (by omega) (by omega)
      rw [pow_succ, pow_succ (2 : Nat) (ilog2 fuel (n / 2) + 1)]
      omega

theorem ilog2_zero : ilog2 0 0 = 0 := rfl

/-- Shape of a rounding that drops bits: `n = q * 2 ^ sh + r` with `sh ≥ 1`,
`2 ^ (sh + 23) ≤ n < 2 ^ (sh + 24)`. -/
theorem round24_large (n : Nat) (st : Bool) (h : ¬ ilog2 n n < 24) :
    ∃ sh, sh = ilog2 n n - 23 ∧ 1 ≤ sh ∧ 2 ^ (sh + 23) ≤ n ∧ n < 2 ^ (sh + 24) ∧
      (round24 n st).2 = sh ∧
      ((round24 n st).1 = n / 2 ^ sh ∧ 2 * (n % 2 ^ sh) ≤ 2 ^ sh ∨
       (round24 n st).1 = n / 2 ^ sh + 1 ∧ 2 ^ sh ≤ 2 * (n % 2 ^ sh)) := by
  have hn : 1 ≤ n := by
    rcases Nat.eq_zero_or_pos n with h0 | h0
    · subst h0; simp [ilog2_zero] at h
    · exact h0
  have hs := ilog2_spec n n hn le_rfl
  refine ⟨ilog2 n n - 23, rfl, by omega, ?_, ?_, ?_, ?_⟩
  · have : ilog2 n n - 23 + 23 = ilog2 n n := by omega
    rw [this]; exact hs.1
  · have : ilog2 n n - 23 + 24 = ilog2 n n + 1 := by omega
    rw [this]; exact hs.2
  · unfold round24
    simp only [h, if_false]
    split <;> rfl
  · have hhalf : 2 * 2 ^ (ilog2 n n - 23 - 1) = 2 ^ (ilog2 n n - 23) := by
      have : ilog2 n n - 23 = (ilog2 n n - 23 - 1) + 1 := by omega
      conv_rhs => rw [this, pow_succ]
      ring
    unfold round24
    simp only [h, if_false]
    split
    · rename_i hup
      right
      refine ⟨rfl, ?_⟩
      rcases hup with hup | hup
      · omega
      · omega
    · rename_i hup
      left
      refine ⟨rfl, ?_⟩
      have : ¬ 2 ^ (ilog2 n n - 23 - 1) < n % 2 ^ (ilog2 n n - 23) := fun hc => hup (Or.inl hc)
      omega

theorem round24_small (n : Nat) (st : Bool) (h : ilog2 n n < 24) :
    round24 n st = (n, 0) ∧ n < 2 ^ 24 := by
  constructor
  · unfold round24; simp [h]
  · rcases Nat.eq_zero_or_pos n with h0 | h0
    · subst h0; norm_num
    · have hs := ilog2_spec n n h0 le_rfl
      calc n < 2 ^ (ilog2 n n + 1) := hs.2
        _ ≤ 2 ^ 24 := Nat.pow_le_pow_right (by norm_num) (by omega)

/-- Rounding to 24 bits moves a number by at most `2 ^ (-24)` of itself, and
the mantissa is at most `2 ^ 24`. -/
theorem round24_bounds (n : Nat) (st : Bool) :
    (2 ^ 24 - 1) * n ≤ 2 ^ 24 * ((round24 n st).1 * 2 ^ (round24 n st).2) ∧
    2 ^ 24 * ((round24 n st).1 * 2 ^ (round24 n st).2) ≤ (2 ^ 24 + 1) * n ∧
    (round24 n st).1 ≤ 2 ^ 24 := by
  by_cases h : ilog2 n n < 24
  · have := round24_small n st h
    rw [this.1]
    simp
    omega
  · obtain ⟨sh, _, hsh1, hlo, hhi, h2, hq⟩ := round24_large n st h
    rw [h2]
    have hdm := Nat.div_add_mod n (2 ^ sh)
    have hmod := Nat.mod_lt n (Nat.two_pow_pos sh)
    have e23 : 2 ^ (sh + 23) = 2 ^ 23 * 2 ^ sh := by rw [pow_add]; ring
    have e24 : 2 ^ (sh + 24) = 2 ^ 24 * 2 ^ sh := by rw [pow_add]; ring
    rw [e23] at hlo
    rw [e24] at hhi
    have hqlt : n / 2 ^ sh < 2 ^ 24 := by
      rw [Nat.div_lt_iff_lt_mul (Nat.two_pow_pos sh)]
      exact hhi
    have hcomm : 2 ^ sh * (n / 2 ^ sh) = n / 2 ^ sh * 2 ^ sh := Nat.mul_comm _ _
    rcases hq with ⟨h1, hr⟩ | ⟨h1, hr⟩
    · rw [h1]
      refine ⟨?_, ?_, ?_⟩
      · generalize hX : n / 2 ^ sh * 2 ^ sh = X at *
        generalize 2 ^ sh = P at *
        norm_num at *
        omega
      · generalize hX : n / 2 ^ sh * 2 ^ sh = X at *
        generalize 2 ^ sh = P at *
        norm_num at *
        omega
      · omega
    · rw [h1, Nat.add_mul, Nat.one_mul]
      refine ⟨?_, ?_, ?_⟩
      · generalize hX : n / 2 ^ sh * 2 ^ sh = X at *
        generalize 2 ^ sh = P at *
        norm_num at *
        omega
      · generalize hX : n / 2 ^ sh * 2 ^ sh = X at *
        generalize 2 ^ sh = P at *
        norm_num at *
        omega
      · omega

theorem round24_pos (n : Nat) (st : Bool) (h : 0 < n) : 0 < (round24 n st).1 := by
  have := (round24_bounds n st).1
  rcases Nat.eq_zero_or_pos (round24 n st).1 with h0 | h0
  · rw [h0] at this
    simp at this
    omega
  · exact h0

/-- Rounding is exact on a number with at most 24 significant bits. -/
theorem round24_exact (m j : Nat) (hm : m ≤ 2 ^ 24) :
    (round24 (m * 2 ^ j) false).1 * 2 ^ (round24 (m * 2 ^ j) false).2 = m * 2 ^ j := by
  by_cases h : ilog2 (m * 2 ^ j) (m * 2 ^ j) < 24
  · rw [(round24_small _ false h).1]; simp
  · obtain ⟨sh, _, hsh1, hlo, hhi, h2, hq⟩ := round24_large (m * 2 ^ j) false h
    have hle : m * 2 ^ j ≤ 2 ^ (24 + j) := by
      rw [pow_add]; exact Nat.mul_le_mul_right _ hm
    have hdvd : 2 ^ sh ∣ m * 2 ^ j := by
      by_cases hsj : sh ≤ j
      · exact Dvd.dvd.mul_left (pow_dvd_pow 2 hsj) m
      · have hlt : 2 ^ (sh + 23) ≤ 2 ^ (24 + j) := le_trans hlo hle
        have hexp : sh + 23 ≤ 24 + j := (Nat.pow_le_pow_iff_right (by norm_num)).1 hlt
        have hs : sh = j + 1 := by omega
        have heq : m * 2 ^ j = 2 ^ (24 + j) := by
          apply le_antisymm hle
          have : sh + 23 = 24 + j := by omega
          rw [← this]; exact hlo
        rw [heq, hs]
        exact pow_dvd_pow 2 (by omega)
    have hmod : m * 2 ^ j % 2 ^ sh = 0 := Nat.mod_eq_zero_of_dvd hdvd
    have hpos : 0 < 2 ^ sh := Nat.two_pow_pos sh
    rw [h2]
    rcases hq with ⟨h1, _⟩ | ⟨_, hr⟩
    · rw [h1]; exact Nat.div_mul_cancel hdvd
    · rw [hmod] at hr; omega

theorem toRat_ofNat (n : Nat) :
    toRat (ofNat n) = (((round24 n false).1 * 2 ^ (round24 n false).2 : Nat) : ℚ) := by
  simp [toRat, ofNat]

theorem ofNat_m (n : Nat) : (ofNat n).m = ((round24 n false).1 : Int) := rfl

theorem ofNat_m_pos (n : Nat) (h : 0 < n) : 0 < (ofNat n).m := by
  rw [ofNat_m]; exact_mod_cast round24_pos n false h

/-- Value of a product of two values with positive mantissas. -/
theorem toRat_mul_pos (a b : F32) (ha : 0 < a.m) (hb : 0 < b.m) :
    toRat (mul a b) =
      (((round24 (a.m.natAbs * b.m.natAbs) false).1 *
        2 ^ (round24 (a.m.natAbs * b.m.natAbs) false).2 : Nat) : ℚ) * (2 : ℚ) ^ (a.e + b.e) ∧
    (mul a b).m = ((round24 (a.m.natAbs * b.m.natAbs) false).1 : Int) := by
  have hsa : a.m.sign = 1 := Int.sign_eq_one_of_pos ha
  have hsb : b.m.sign = 1 := Int.sign_eq_one_of_pos hb
  constructor
  · simp only [toRat, mul, hsa, hsb]
    rw [zpow_add₀ (by norm_num : (2 : ℚ) ≠ 0), zpow_natCast]
    push_cast
    ring
  · simp [mul, hsa, hsb]

theorem mul_m_pos (a b : F32) (ha : 0 < a.m) (hb : 0 < b.m) : 0 < (mul a b).m := by
  rw [(toRat_mul_pos a b ha hb).2]
  have : 0 < a.m.natAbs * b.m.natAbs :=
    Nat.mul_pos (Int.natAbs_pos.2 (ne_of_gt ha)) (Int.natAbs_pos.2 (ne_of_gt hb))
  exact_mod_cast round24_pos _ false this

theorem mul_m_le (a b : F32) : (mul a b).m.natAbs ≤ 2 ^ 24 := by
  simp only [mul, Int.natAbs_mul, Int.natAbs_ofNat]
  have h1 : a.m.sign.natAbs ≤ 1 := by
    rcases lt_trichotomy a.m 0 with h | h | h
    · simp [Int.sign_eq_neg_one_of_neg h]
    · simp [h]
    · simp [Int.sign_eq_one_of_pos h]
  have h2 : b.m.sign.natAbs ≤ 1 := by
    rcases lt_trichotomy b.m 0 with h | h | h
    · simp [Int.sign_eq_neg_one_of_neg h]
    · simp [h]
    · simp [Int.sign_eq_one_of_pos h]
  have h3 := (round24_bounds (a.m.natAbs * b.m.natAbs) false).2.2
  calc a.m.sign.natAbs * b.m.sign.natAbs * (round24 (a.m.natAbs * b.m.natAbs) false).1
      ≤ 1 * 1 * 2 ^ 24 := Nat.mul_le_mul (Nat.mul_le_mul h1 h2) h3
    _ = 2 ^ 24 := by norm_num

/-- Division by `2.0f` is exact: it halves the value, and keeps the sign of
the mantissa. -/
theorem toRat_div_two (x : F32) (hx : x.m.natAbs ≤ 2 ^ 24) :
    toRat (div x two) = toRat x / 2 ∧ (0 < x.m → 0 < (div x two).m) := by
  have hk : ilog2 (two.m.natAbs) (two.m.natAbs) + 27 = 27 := by decide
  have hex := round24_exact x.m.natAbs 27 hx
  have hdiv : div x two =
      ⟨x.m.sign * (round24 (x.m.natAbs * 2 ^ 27) false).1,
        x.e - 1 - 27 + (round24 (x.m.natAbs * 2 ^ 27) false).2⟩ := by
    simp [div, two, ilog2, Nat.mod_one]
  constructor
  · rw [hdiv]
    simp only [toRat]
    have h2 : (2 : ℚ) ≠ 0 := by norm_num
    rw [zpow_add₀ h2, zpow_sub₀ h2, zpow_sub₀ h2, zpow_natCast]
    have hq : (((round24 (x.m.natAbs * 2 ^ 27) false).1 : ℚ)) *
        (2 : ℚ) ^ (round24 (x.m.natAbs * 2 ^ 27) false).2 = (x.m.natAbs : ℚ) * 2 ^ 27 := by
      exact_mod_cast hex
    have hs : ((x.m.sign : ℚ)) * (x.m.natAbs : ℚ) = (x.m : ℚ) := by
      calc ((x.m.sign : ℚ)) * (x.m.natAbs : ℚ)
          = ((x.m.sign * (x.m.natAbs : ℤ) : ℤ) : ℚ) := by
            rw [Int.cast_mul, Int.cast_natCast]
        _ = (x.m : ℚ) := by rw [Int.sign_mul_natAbs]
    push_cast
    calc (x.m.sign : ℚ) * ((round24 (x.m.natAbs * 2 ^ 27) false).1 : ℚ) *
          ((2 : ℚ) ^ x.e / 2 ^ (1 : ℤ) / 2 ^ (27 : ℤ) *
            (2 : ℚ) ^ (round24 (x.m.natAbs * 2 ^ 27) false).2)
        = (x.m.sign : ℚ) * (((round24 (x.m.natAbs * 2 ^ 27) false).1 : ℚ) *
            (2 : ℚ) ^ (round24 (x.m.natAbs * 2 ^ 27) false).2) *
            ((2 : ℚ) ^ x.e / 2 ^ (1 : ℤ) / 2 ^ (27 : ℤ)) := by ring
      _ = (x.m.sign : ℚ) * ((x.m.natAbs : ℚ) * 2 ^ 27) *
            ((2 : ℚ) ^ x.e / 2 ^ (1 : ℤ) / 2 ^ (27 : ℤ)) := by rw [hq]
      _ = ((x.m.sign : ℚ) * (x.m.natAbs : ℚ)) * (2 : ℚ) ^ x.e / 2 := by
          norm_num
          ring
      _ = (x.m : ℚ) * (2 : ℚ) ^ x.e / 2 := by rw [hs]
  · intro hpos
    rw [hdiv]
    simp only [Int.sign_eq_one_of_pos hpos, one_mul]
    have : 0 < x.m.natAbs * 2 ^ 27 :=
      Nat.mul_pos (Int.natAbs_pos.2 (ne_of_gt hpos)) (by norm_num)
    exact_mod_cast round24_pos _ false this

theorem lt_zero_iff (d : F32) : lt zero d = true ↔ 0 < d.m := by
  simp only [lt, zero, zero_mul, decide_eq_true_eq]
  constructor
  · intro h
    by_contra hc
    have hneg : d.m ≤ 0 := not_lt.1 hc
    have hp : (0 : Int) ≤ 2 ^ (d.e - min 0 d.e).toNat := by positivity
    have := mul_nonpos_of_nonpos_of_nonneg hneg hp
    omega
  · intro h
    exact mul_pos h (by positivity)

theorem toRat_pos_iff (d : F32) : 0 < toRat d ↔ 0 < d.m := by
  have h2 : (0 : ℚ) < (2 : ℚ) ^ d.e := zpow_pos (by norm_num) _
  simp only [toRat]
  constructor
  · intro h
    have := (mul_pos_iff_of_pos_right h2).1 h
    exact_mod_cast this
  · intro h
    exact mul_pos (by exact_mod_cast h) h2

theorem round24_bounds_rat (n : Nat) (st : Bool) :
    (16777215 : ℚ) * n ≤ 16777216 * (((round24 n st).1 : ℚ) * 2 ^ (round24 n st).2) ∧
    (16777216 : ℚ) * (((round24 n st).1 : ℚ) * 2 ^ (round24 n st).2) ≤ 16777217 * n := by
  have h := round24_bounds n st
  norm_num at h
  exact ⟨by exact_mod_cast h.1, by exact_mod_cast h.2.1⟩

/-- The literal `0.0343f` is the binary32 value nearest to `0.0343`: a 24-bit
mantissa, and less than half a unit in the last place away. -/
theorem c_0_0343_nearest :
    2 ^ 23 ≤ c_0_0343.m ∧ c_0_0343.m < 2 ^ 24 ∧
    |toRat c_0_0343 - 343 / 10000| < (2 : ℚ) ^ (-28 : ℤ) / 2 := by
  refine ⟨by decide, by decide, ?_⟩
  simp only [toRat, c_0_0343]
  rw [abs_lt]
  constructor <;> norm_num

/-- The value computed for a positive pulse width: positive, and within
`2 ^ (-22)` (relative) of `pulse_width * 0.01715`. -/
theorem distance_bounds (pw : Nat) (hpw : 0 < pw) :
    0 < (div (mul (ofNat pw) c_0_0343) two).m ∧
    |toRat (div (mul (ofNat pw) c_0_0343) two) - (pw : ℚ) * (343 / 20000)| ≤
      (pw : ℚ) * (343 / 20000) / 2 ^ 22 := by
  have ha : 0 < (ofNat pw).m := ofNat_m_pos pw hpw
  have hc : 0 < c_0_0343.m := by decide
  have hx : 0 < (mul (ofNat pw) c_0_0343).m := mul_m_pos _ _ ha hc
  have hd := toRat_div_two (mul (ofNat pw) c_0_0343) (mul_m_le _ _)
  refine ⟨hd.2 hx, ?_⟩
  rw [hd.1, (toRat_mul_pos _ _ ha hc).1]
  have hnat : (ofNat pw).m.natAbs * c_0_0343.m.natAbs = (round24 pw false).1 * 9207336 := by
    simp [ofNat, c_0_0343]
  rw [hnat]
  have he : (2 : ℚ) ^ ((ofNat pw).e + c_0_0343.e) = 2 ^ (round24 pw false).2 / 268435456 := by
    have : (ofNat pw).e + c_0_0343.e = ((round24 pw false).2 : ℤ) - 28 := by
      simp [ofNat, c_0_0343]; ring
    rw [this, zpow_sub₀ (by norm_num : (2 : ℚ) ≠ 0), zpow_natCast]
    norm_num
  rw [he]
  have hA := round24_bounds_rat pw false
  have hB := round24_bounds_rat ((round24 pw false).1 * 9207336) false
  push_cast at hB ⊢
  generalize ((round24 ((round24 pw false).1 * 9207336) false).1 : ℚ) *
    2 ^ (round24 ((round24 pw false).1 * 9207336) false).2 = b at hB ⊢
  have hS : (0 : ℚ) < 2 ^ (round24 pw false).2 := by positivity
  generalize (2 : ℚ) ^ (round24 pw false).2 = S at hA hS ⊢
  generalize ((round24 pw false).1 : ℚ) = q at hA hB ⊢
  have hp : (0 : ℚ) < pw := by exact_mod_cast hpw
  generalize (pw : ℚ) = p at hA hp ⊢
  have h1 := mul_le_mul_of_nonneg_right hB.1 hS.le
  have h2 := mul_le_mul_of_nonneg_right hB.2 hS.le
  rw [abs_le]
  constructor
  · have : (16777215 : ℚ) * 16777215 * 9207336 * p ≤ 16777216 * 16777216 * (b * S) := by
      nlinarith [hA.1, h1]
    norm_num
    linarith
  · have : (16777216 : ℚ) * 16777216 * (b * S) ≤ 16777217 * 16777217 * 9207336 * p := by
      nlinarith [hA.2, h2]
    norm_num
    linarith

end F32

/-! ## The value returned by `measure_distance` -/

theorem result_valid (g : Globals) (h : g.start_time < g.end_time) :
    result g =
      F32.div (F32.mul (F32.ofNat (g.end_time - g.start_time)) F32.c_0_0343) F32.two := by
  simp [result, h]

theorem result_invalid (g : Globals) (h : g.end_time ≤ g.start_time) :
    result g = F32.minus_one := by
  have : ¬ g.start_time < g.end_time := by omega
  simp [result, this]

/-- C5 (as amended): for every window read after the wait with `start_time <
end_time`, `measure_distance` returns a value `> 0` that is the
single-precision result of `pulse_width * 0.0343f / 2.0f`, within `2 ^ (-22)`
(relative) of `(end - start) * 0.01715`; for a pulse width of 1160 it is
`10430185 / 2 ^ 19 = 19.8939990997...`, less than `0.000001` from `19.894` and
`19.9` to one decimal. With `end_time <= start_time`, in particular
`start_time = end_time`, it returns `-1.0f`. -/
theorem C5_distance_of_window (g : Globals) :
    (g.start_time < g.end_time →
      F32.lt F32.zero (result g) = true ∧
      0 < F32.toRat (result g) ∧
      |F32.toRat (result g) - ((g.end_time - g.start_time : Nat) : ℚ) * (343 / 20000)| ≤
        ((g.end_time - g.start_time : Nat) : ℚ) * (343 / 20000) / 2 ^ 22 ∧
      (g.end_time - g.start_time = 1160 →
        F32.toRat (result g) = 10430185 / 524288 ∧
        |F32.toRat (result g) - 19894 / 1000| < 1 / 1000000 ∧
        (1985 / 100 : ℚ) ≤ F32.toRat (result g) ∧ F32.toRat (result g) < 1995 / 100)) ∧
    (g.end_time ≤ g.start_time → result g = F32.minus_one) := by
  refine ⟨?_, result_invalid g⟩
  intro h
  rw [result_valid g h]
  have hb := F32.distance_bounds (g.end_time - g.start_time) (by omega)
  refine ⟨(F32.lt_zero_iff _).2 hb.1, (F32.toRat_pos_iff _).2 hb.1, hb.2, ?_⟩
  intro h1160
  rw [h1160]
  have hv : F32.div (F32.mul (F32.ofNat 1160) F32.c_0_0343) F32.two = ⟨10430185, -19⟩ := by
    decide
  rw [hv]
  have hr : F32.toRat ⟨10430185, -19⟩ = 10430185 / 524288 := by
    simp only [F32.toRat]
    norm_num
  rw [hr]
  refine ⟨rfl, ?_, by norm_num, by norm_num⟩
  rw [abs_lt]
  constructor <;> norm_num

/-- Witness of C5: the window from 100 to 1260 (pulse width 1160). -/
theorem C5_distance_of_window_witness :
    F32.lt F32.zero (result ⟨100, 1260, false, -1⟩) = true ∧
    F32.toRat (result ⟨100, 1260, false, -1⟩) = 10430185 / 524288 :=
  have h := (C5_distance_of_window ⟨100, 1260, false, -1⟩).1 (by decide)
  ⟨h.1, (h.2.2.2 (by decide)).1⟩

/-- Counterexample to C5 as stated: the window with `start_time = end_time =
100` satisfies start ≤ end, yet the value returned is `-1.0f`, which is not
`> 0` and is not `0 * 0.01715`; and for the pulse width 1160 the value
returned is not `19.894`. -/
theorem C5_counterexample :
    ((100 : Nat) ≤ 100 ∧
      (measure_distance pico 1 [Event.irq 8 100, Event.irq 4 100] [] [] Globals.init).map
          Prod.fst
        = some F32.minus_one ∧
      result ⟨100, 100, false, -1⟩ = F32.minus_one ∧
      F32.lt F32.zero (result ⟨100, 100, false, -1⟩) = false ∧
      F32.toRat (result ⟨100, 100, false, -1⟩) ≠ ((100 - 100 : Nat) : ℚ) * (343 / 20000)) ∧
    F32.toRat (result ⟨100, 1260, false, -1⟩) ≠ 19894 / 1000 := by
  have h1 : result ⟨100, 100, false, -1⟩ = F32.minus_one := by decide
  have h2 : result ⟨100, 1260, false, -1⟩ = ⟨10430185, -19⟩ := by decide
  refine ⟨⟨le_rfl, by decide, h1, by decide, ?_⟩, ?_⟩
  · rw [h1]
    simp only [F32.toRat, F32.minus_one]
    norm_num
  · rw [h2]
    simp only [F32.toRat]
    norm_num

end Ranging
